import Mathlib

/-!
Verification of the DHT routing / query managers and the TCP peer manager of
the gyee p2p node. The definitions are shallow embeddings of the Go sources
(p2p/dht/route.go, p2p/dht/query.go, p2p/peer/peer.go); the theorems settle
the specification claims C1 - C10 against them.

Conventions of the embedding:
* machine bytes are Nat values below 256; node identities, task handles and
  sub-network identities are abstracted to Nat because the code only compares
  them for equality;
* Go slices become List/Array values, Go maps become association lists with
  zero-default lookup where Go map reads default;
* fallible or panicking paths are returned explicitly (Option or dedicated
  result constructors) instead of panicking;
* loops whose termination is in question take an explicit fuel parameter; a
  result of none means the loop was still running when the fuel ran out.
-/

set_option maxRecDepth 10000

namespace Gyee

/-! ### route.go: constants, log2-distance -/

/-- Constant rutMgrBucketSize from route.go: bucket capacity. -/
def rutMgrBucketSize : Nat := 32

/-- Constant rutMgrMaxNearest from route.go: max peers one Nearest call may
return. -/
def rutMgrMaxNearest : Nat := 32

/-- Constant HashByteLength from route.go: hash length in bytes. -/
def HashByteLength : Nat := 32

/-- Constant HashBitLength from route.go: hash length in bits. -/
def HashBitLength : Nat := HashByteLength * 8

/-- Constant rutMgrMaxLatency from route.go (nanoseconds, 60 seconds). -/
def rutMgrMaxLatency : Nat := 60 * 1000000000

/-- rutMgrSetupLog2DistLKT from route.go fills a 256-entry lookup table: the
statement before the loops writes entry 0 with the value 8, and the double
loop writes, for each round n below 8, every entry b with 2^n <= b < 2^(n+1)
with the value 8 - n - 1. The table is embedded as the function taking the
byte index to the entry the loops store there, one branch per round. -/
def rutMgrSetupLog2DistLKT (b : Nat) : Nat :=
  if b = 0 then 8
  else if b < 2 then 7
  else if b < 4 then 6
  else if b < 8 then 5
  else if b < 16 then 4
  else if b < 32 then 3
  else if b < 64 then 2
  else if b < 128 then 1
  else 0

/-- Read of the lookup table rutMgr.distLookupTab; a byte value is always in
range of the 256 entries. -/
def distLookupTab (b : Nat) : Nat := rutMgrSetupLog2DistLKT b

theorem distLookupTab_zero : distLookupTab 0 = 8 := rfl

/-- rutMgrLog2Dist from route.go: walk the two hashes byte by byte, adding
the table entry of the xor of the current bytes, and stopping right after the
first contribution that is not 8 (that is, after the first differing byte). -/
def rutMgrLog2Dist : List Nat → List Nat → Nat
  | b1 :: t1, b2 :: t2 =>
    let delta := distLookupTab (b1 ^^^ b2)
    if delta ≠ 8 then delta else delta + rutMgrLog2Dist t1 t2
  | _, _ => 0

theorem rutMgrLog2Dist_comm (a b : List Nat) :
    rutMgrLog2Dist a b = rutMgrLog2Dist b a := by
  induction a generalizing b with
  | nil => cases b <;> rfl
  | cons x t ih =>
    cases b with
    | nil => rfl
    | cons y s => simp only [rutMgrLog2Dist, Nat.xor_comm x y, ih]

theorem rutMgrLog2Dist_self (a : List Nat) :
    rutMgrLog2Dist a a = 8 * a.length := by
  induction a with
  | nil => rfl
  | cons x t ih =>
    simp [rutMgrLog2Dist, Nat.xor_self, distLookupTab_zero, ih,
      List.length_cons]
    ring

/-- All-zero 32-byte hash, a concrete input for witnesses. -/
def zeroHash : List Nat := List.replicate 32 0

/-- All-one 32-byte hash, a concrete input for witnesses. -/
def oneHash : List Nat := List.replicate 32 1

/-- C7 counterexample: the claim says equal hashes give distance 0, but the
code accumulates 8 for every equal byte and returns 256 on two equal 32-byte
hashes. -/
theorem c7_log2Dist_equal_counterexample :
    rutMgrLog2Dist zeroHash zeroHash = 256 ∧
      ¬ rutMgrLog2Dist zeroHash zeroHash = 0 := by
  have h := rutMgrLog2Dist_self zeroHash
  have hl : zeroHash.length = 32 := by simp [zeroHash]
  rw [hl] at h
  exact ⟨by rw [h], by rw [h]; omega⟩

/-- C7 (amended): rutMgrLog2Dist is symmetric on 32-byte hashes, and on two
equal hashes it returns 256 (HashBitLength), not 0. -/
theorem c7_log2Dist_symm_and_equal (a b : List Nat)
    (ha : a.length = HashByteLength) (hb : b.length = HashByteLength) :
    rutMgrLog2Dist a b = rutMgrLog2Dist b a ∧
      rutMgrLog2Dist a a = HashBitLength := by
  refine ⟨rutMgrLog2Dist_comm a b, ?_⟩
  rw [rutMgrLog2Dist_self, ha]
  norm_num [HashByteLength, HashBitLength]

/-- C7 witness: the amended theorem applied at two concrete hashes. -/
theorem c7_witness :
    zeroHash.length = HashByteLength ∧ oneHash.length = HashByteLength ∧
      (rutMgrLog2Dist zeroHash oneHash = rutMgrLog2Dist oneHash zeroHash ∧
        rutMgrLog2Dist zeroHash zeroHash = HashBitLength) :=
  ⟨by decide, by decide,
    c7_log2Dist_symm_and_equal zeroHash oneHash (by decide) (by decide)⟩

/-! ### route.go: route table, find, update -/

/-- rutMgrBucketNode from route.go. The 64-byte node identity is abstracted
to a Nat since the code only compares identities for equality. -/
structure rutMgrBucketNode where
  id : Nat
  hash : List Nat
  dist : Nat
deriving DecidableEq, Repr

/-- rutMgrRouteTable from route.go. A bucket is a list of nodes with the
front being the most recently seen; metricTab maps a node identity to its
recorded EWMA latency. -/
structure rutMgrRouteTable where
  shaLocal : List Nat
  bucketSize : Nat
  bucketTab : List (List rutMgrBucketNode)
  metricTab : List (Nat × Nat)
  maxLatency : Nat
deriving DecidableEq, Repr

/-- rutMgrSetupRouteTable from route.go. The local identity hash is passed in
(the Go code computes it as the sha256 of the local node identity). The Go
call make with length 0 and capacity 257 yields a bucket slice of length
zero. -/
def rutMgrSetupRouteTable (shaLocal : List Nat) : rutMgrRouteTable :=
  { shaLocal := shaLocal
    bucketSize := rutMgrBucketSize
    bucketTab := []
    metricTab := []
    maxLatency := rutMgrMaxLatency }

/-- Result of the bucket scan of rutMgrRouteTable.find. -/
inductive FindRes
  | found (bn : rutMgrBucketNode)
  | notFound
deriving DecidableEq, Repr

/-- Loop of rutMgrRouteTable.find from route.go. The Go loop header is
for el := li.Front(); el != nil; el.Next() - the value of el.Next() is
discarded, so the cursor never moves past the front element. The fuel counts
loop iterations; none means the loop was still running when fuel ran out. -/
def findLoop (id : Nat) (el : Option rutMgrBucketNode) : Nat → Option FindRes
  | 0 => none
  | fuel + 1 =>
    match el with
    | none => some .notFound
    | some bn => if bn.id = id then some (.found bn) else findLoop id el fuel

/-- rutMgrRouteTable.find from route.go: bounds-check the distance against
the bucket count, then run the scan loop on the bucket front. -/
def rutMgrRouteTable.find (rt : rutMgrRouteTable) (id : Nat) (dist : Nat)
    (fuel : Nat) : Option FindRes :=
  if dist ≥ rt.bucketTab.length then some .notFound
  else findLoop id (rt.bucketTab.getD dist []).head? fuel

/-- rutMgrMetricGetEWMA from route.go: the EWMA recorded for a peer, if
any. -/
def rutMgrMetricGetEWMA (rt : rutMgrRouteTable) (id : Nat) : Option Nat :=
  (rt.metricTab.find? (fun m => m.1 == id)).map (fun m => m.2)

/-- list.MoveToFront of the bucket element with the given identity. -/
def moveToFront (bucket : List rutMgrBucketNode) (id : Nat) :
    List rutMgrBucketNode :=
  match bucket.find? (fun bn => bn.id == id) with
  | none => bucket
  | some bn => bn :: bucket.eraseP (fun b => b.id == id)

/-- Outcome of rutMgrRouteTable.update. panicIdx models the out-of-range
slice write of index 0 on the zero-length bucket slice; panicAssert models
the failing type assertion inside split (update pushes pointer values into
buckets while split asserts plain values), which fires on the first element
split visits. -/
inductive UpdateRes
  | ok (rt : rutMgrRouteTable)
  | errNotFound
  | panicIdx
  | panicAssert
deriving DecidableEq, Repr

/-- rutMgrRouteTable.update from route.go, with fuel for the embedded find
loop; a result of none means the find loop ran forever. -/
def rutMgrRouteTable.update (rt : rutMgrRouteTable) (bn : rutMgrBucketNode)
    (dist : Nat) (fuel : Nat) : Option UpdateRes :=
  if rt.bucketTab.length = 0 then some .panicIdx
  else
    let tail := rt.bucketTab.length - 1
    match rt.find bn.id dist fuel with
    | none => none
    | some (.found _) =>
      some (.ok { rt with
        bucketTab :=
          rt.bucketTab.set dist (moveToFront (rt.bucketTab.getD dist []) bn.id) })
    | some .notFound =>
      match rutMgrMetricGetEWMA rt bn.id with
      | none => some .errNotFound
      | some ewma =>
        if ewma > rt.maxLatency then some (.ok rt)
        else
          let bucket := (rt.bucketTab.getD tail []) ++ [bn]
          if bucket.length > rt.bucketSize then some .panicAssert
          else some (.ok { rt with bucketTab := rt.bucketTab.set tail bucket })

/-- C9: rutMgrSetupRouteTable creates a bucket sequence of length zero, not
one, and the very first update performed on the fresh table hits the
out-of-range write of bucket index 0 (a runtime panic in Go). -/
theorem c9_setup_zero_buckets_update_panics (shaLocal : List Nat) :
    (rutMgrSetupRouteTable shaLocal).bucketTab.length = 0 ∧
      ∀ bn dist fuel,
        (rutMgrSetupRouteTable shaLocal).update bn dist fuel =
          some UpdateRes.panicIdx := by
  refine ⟨rfl, fun bn dist fuel => ?_⟩
  simp [rutMgrRouteTable.update, rutMgrSetupRouteTable]

/-- Bucket node at the front of the C8 bucket (not the one looked up). -/
def c8NodeFront : rutMgrBucketNode := ⟨1, zeroHash, 0⟩

/-- Bucket node behind the front in the C8 bucket; this is the peer the
update looks up. -/
def c8NodeBack : rutMgrBucketNode := ⟨2, oneHash, 0⟩

/-- Routing table of the C8 failing input: a single bucket holding the two
nodes, the sought one in second position, and a metric entry for it. -/
def c8Table : rutMgrRouteTable :=
  { shaLocal := zeroHash
    bucketSize := rutMgrBucketSize
    bucketTab := [[c8NodeFront, c8NodeBack]]
    metricTab := [(2, 5)]
    maxLatency := rutMgrMaxLatency }

/-- C8: with peer 2 present in the bucket but not at the front, the find
scan never terminates - whatever the fuel - and so neither does the update
that performs it; the entry is never moved to the front. -/
theorem c8_find_never_terminates :
    ∀ fuel, c8Table.find 2 0 fuel = none ∧ c8Table.update c8NodeBack 0 fuel = none := by
  have hfind : ∀ fuel, c8Table.find 2 0 fuel = none := by
    intro fuel
    have : ∀ n, findLoop 2 (some c8NodeFront) n = none := by
      intro n
      induction n with
      | zero => rfl
      | succ k ih => simpa [findLoop, c8NodeFront] using ih
    simpa [rutMgrRouteTable.find, c8Table] using this fuel
  intro fuel
  refine ⟨hfind fuel, ?_⟩
  unfold rutMgrRouteTable.update
  rw [if_neg (by decide)]
  rw [show c8NodeBack.id = 2 from rfl, hfind fuel]

/-! ### route.go: sorting and nearest lookup -/

/-- Inner insertion of the first phase of rutMgrSortPeer: place index i into
the ordered index list, right before the first index whose distance (read
from the original distance list) is larger. -/
def sortInsertIdx (ds : List Nat) (li : List Nat) (i : Nat) : List Nat :=
  match li with
  | [] => [i]
  | j :: rest =>
    if ds.getD i 0 < ds.getD j 0 then i :: j :: rest
    else j :: sortInsertIdx ds rest i

/-- Second phase of rutMgrSortPeer: walk the ordered index list and swap
position i with position pi in place, exactly as the Go loop does. -/
def sortApplySwaps {α} (i : Nat) (order : List Nat) (ps : Array α)
    (ds : Array Nat) : Array α × Array Nat :=
  match order with
  | [] => (ps, ds)
  | pi :: rest => sortApplySwaps (i + 1) rest (ps.swap! i pi) (ds.swap! i pi)

/-- rutMgrSortPeer from route.go: build a stable ascending list of indices,
then apply it to the two slices by naive in-place swaps. -/
def rutMgrSortPeer {α} (ps : List α) (ds : List Nat) : List α × List Nat :=
  if ps.length = 0 ∨ ds.length = 0 then (ps, ds)
  else
    let order := (List.range ds.length).foldl (sortInsertIdx ds) []
    let out := sortApplySwaps 0 order ps.toArray ds.toArray
    (out.1.toList, out.2.toList)

/-- addClosest closure of rutMgrNearest: append the bucket entries together
with their distance to the target until the accumulated count reaches the
requested size. -/
def addClosest (ht : List Nat) (size : Nat) :
    List rutMgrBucketNode → List rutMgrBucketNode × List Nat →
      List rutMgrBucketNode × List Nat
  | [], acc => acc
  | bn :: rest, (ns, ds) =>
    let ns := ns ++ [bn]
    let ds := ds ++ [rutMgrLog2Dist ht bn.hash]
    if ns.length ≥ size then (ns, ds) else addClosest ht size rest (ns, ds)

/-- Bucket scan loops of rutMgrNearest: visit the given buckets in order,
stopping as soon as the accumulated count reaches the requested size. -/
def scanBuckets (ht : List Nat) (size : Nat) :
    List (List rutMgrBucketNode) → List rutMgrBucketNode × List Nat →
      List rutMgrBucketNode × List Nat
  | [], acc => acc
  | bk :: rest, acc =>
    let acc2 := addClosest ht size bk acc
    if acc2.1.length ≥ size then acc2 else scanBuckets ht size rest acc2

/-- Outcome of rutMgrNearest. -/
inductive NearestRes
  | ok (peers : List rutMgrBucketNode) (dists : List Nat)
  | errParameter
  | panicIdx
deriving DecidableEq, Repr

/-- rutMgrNearest from route.go, applied to the already-hashed target ht
(the Go code first hashes the target identity with sha256; every claimed
property concerns what happens after that hashing). It scans bucket dt, then
the buckets above it, then the buckets below it, and finally sorts the
accumulated peers with rutMgrSortPeer. The unchecked read of bucket index dt
panics when dt is not below the bucket count. -/
def rutMgrNearest (rt : rutMgrRouteTable) (ht : List Nat) (size : Nat) :
    NearestRes :=
  if size = 0 ∨ size > rutMgrMaxNearest then .errParameter
  else
    let dt := rutMgrLog2Dist rt.shaLocal ht
    if dt ≥ rt.bucketTab.length then .panicIdx
    else
      let acc0 := addClosest ht size (rt.bucketTab.getD dt []) ([], [])
      let acc :=
        if acc0.1.length ≥ size then acc0
        else
          let acc1 := scanBuckets ht size (rt.bucketTab.drop (dt + 1)) acc0
          if acc1.1.length ≥ size then acc1
          else if dt = 0 then acc1
          else scanBuckets ht size ((rt.bucketTab.take dt).reverse) acc1
      if acc.1.length > 0 then
        let out := rutMgrSortPeer acc.1 acc.2
        .ok out.1 out.2
      else .ok acc.1 acc.2

/-- sha256 of 64 bytes of value 1: the local identity hash of the C2 failing
input. -/
def c2ShaLocal : List Nat :=
  [124, 137, 117, 225, 230, 10, 92, 131, 55, 242, 142, 223, 140, 51, 195,
   177, 128, 54, 11, 114, 121, 100, 74, 155, 193, 175, 60, 81, 230, 34, 11,
   245]

/-- sha256 of 64 zero bytes: the hash of the lookup target of the C2 failing
input. -/
def c2Target : List Nat :=
  [245, 165, 253, 66, 209, 106, 32, 48, 39, 152, 239, 110, 211, 9, 151, 155,
   67, 0, 61, 35, 32, 217, 240, 232, 234, 152, 49, 169, 39, 89, 251, 75]

/-- First bucket entry of the C2 failing input: its hash differs from the
target hash only in the last byte, giving log2-distance 255 to the target. -/
def c2Node1 : rutMgrBucketNode :=
  ⟨101,
   [245, 165, 253, 66, 209, 106, 32, 48, 39, 152, 239, 110, 211, 9, 151, 155,
    67, 0, 61, 35, 32, 217, 240, 232, 234, 152, 49, 169, 39, 89, 251, 74],
   0⟩

/-- Second bucket entry of the C2 failing input: its hash differs from the
target hash in the top bit of the first byte, giving log2-distance 0. -/
def c2Node2 : rutMgrBucketNode :=
  ⟨102,
   [117, 165, 253, 66, 209, 106, 32, 48, 39, 152, 239, 110, 211, 9, 151, 155,
    67, 0, 61, 35, 32, 217, 240, 232, 234, 152, 49, 169, 39, 89, 251, 75],
   0⟩

/-- Routing table of the C2 failing input: one bucket holding the two nodes
in decreasing distance to the target. -/
def c2Table : rutMgrRouteTable :=
  { shaLocal := c2ShaLocal
    bucketSize := rutMgrBucketSize
    bucketTab := [[c2Node1, c2Node2]]
    metricTab := []
    maxLatency := rutMgrMaxLatency }

/-- C2: on the concrete table above, Nearest with size 2 returns the two
peers with distance list [255, 0], which is not ascending - the in-place
swap application of rutMgrSortPeer undoes the ordering it computed. -/
theorem c2_nearest_not_sorted :
    rutMgrNearest c2Table c2Target 2 = .ok [c2Node1, c2Node2] [255, 0] ∧
      ¬ List.Sorted (· ≤ ·) [255, 0] := by
  constructor
  · decide
  · decide

/-! ### query.go: basic data -/

/-- Wire MsgType value used as a ForWhat tag (only distinctness of the five
tags is relied upon). -/
def MID_FINDNODE : Nat := 1

/-- Wire MsgType value used as a ForWhat tag. -/
def MID_PUTVALUE : Nat := 3

/-- Wire MsgType value used as a ForWhat tag. -/
def MID_GETVALUE_REQ : Nat := 4

/-- Wire MsgType value used as a ForWhat tag. -/
def MID_PUTPROVIDER : Nat := 6

/-- Wire MsgType value used as a ForWhat tag. -/
def MID_GETPROVIDER_REQ : Nat := 7

/-- DhtErrno code: success. -/
def DhtEnoNone : Nat := 0

/-- DhtErrno code: not found (only distinctness from the other codes is
relied upon). -/
def DhtEnoNotFound : Nat := 6

/-- DhtErrno code: NAT mapping changed. -/
def DhtEnoNatMapping : Nat := 13

/-- config.Node: the endpoint fields and the node identity, each abstracted
to a Nat. -/
structure Node where
  ip : Nat
  udp : Nat
  tcp : Nat
  id : Nat
deriving DecidableEq, Repr

/-- qryResultInfo from query.go; the connection status pcs is abstracted to
a Nat. -/
structure qryResultInfo where
  node : Node
  pcs : Nat
  dist : Nat
deriving DecidableEq, Repr

/-- qcbUpdateResult from query.go: insert the new result right before the
first stored result with strictly larger distance, else append. -/
def qcbUpdateResult (li : List qryResultInfo) (qri : qryResultInfo) :
    List qryResultInfo :=
  match li with
  | [] => [qri]
  | v :: rest =>
    if qri.dist < v.dist then qri :: v :: rest else v :: qcbUpdateResult rest qri

/-- Ascending-distance order of a result list. -/
def resultSorted (li : List qryResultInfo) : Prop :=
  li.Pairwise (fun a b => a.dist ≤ b.dist)

theorem mem_qcbUpdateResult (li : List qryResultInfo) (qri x : qryResultInfo) :
    x ∈ qcbUpdateResult li qri → x ∈ li ∨ x = qri := by
  induction li with
  | nil =>
    intro hx
    simp only [qcbUpdateResult, List.mem_singleton] at hx
    exact Or.inr hx
  | cons v rest ih =>
    intro hx
    by_cases h : qri.dist < v.dist
    · simp only [qcbUpdateResult, if_pos h] at hx
      rcases List.mem_cons.mp hx with h1 | h1
      · exact Or.inr h1
      · exact Or.inl h1
    · simp only [qcbUpdateResult, if_neg h] at hx
      rcases List.mem_cons.mp hx with h1 | h1
      · exact Or.inl (List.mem_cons.mpr (Or.inl h1))
      · rcases ih h1 with h2 | h2
        · exact Or.inl (List.mem_cons.mpr (Or.inr h2))
        · exact Or.inr h2

theorem qcbUpdateResult_sorted (li : List qryResultInfo) (qri : qryResultInfo) :
    resultSorted li → resultSorted (qcbUpdateResult li qri) := by
  induction li with
  | nil =>
    intro _
    simp [qcbUpdateResult, resultSorted]
  | cons v rest ih =>
    intro hs
    rw [resultSorted, List.pairwise_cons] at hs
    by_cases h : qri.dist < v.dist
    · rw [resultSorted]
      simp only [qcbUpdateResult, if_pos h]
      refine List.Pairwise.cons ?_ (List.Pairwise.cons hs.1 hs.2)
      intro y hy
      rcases List.mem_cons.mp hy with h1 | h1
      · rw [h1]; omega
      · have := hs.1 y h1
        omega
    · rw [resultSorted]
      simp only [qcbUpdateResult, if_neg h]
      refine List.Pairwise.cons ?_ (ih hs.2)
      intro y hy
      rcases mem_qcbUpdateResult rest qri y hy with h2 | h2
      · exact hs.1 y h2
      · rw [h2]; omega

/-! ### query.go: the final Peers copy of qryMgrResultReport (C10) -/

/-- Peers slice built by qryMgrResultReport from query.go when the result
list is non-empty: a slice of nils of the result length, filled by a loop
whose index variable idx is initialized to 0 and never incremented, so every
iteration writes slot 0. An empty result list leaves Peers nil (none). -/
def qryMgrResultReportPeers (rs : List qryResultInfo) :
    Option (List (Option Node)) :=
  if rs.length > 0 then
    some (rs.foldl (fun peers v => peers.set 0 (some v.node))
      (List.replicate rs.length none))
  else none

theorem foldl_set_zero (l : List qryResultInfo) (x : qryResultInfo)
    (ps : List (Option Node)) :
    (x :: l).foldl (fun peers v => peers.set 0 (some v.node)) ps =
      ps.set 0 (some ((x :: l).getLast (by simp)).node) := by
  induction l generalizing x ps with
  | nil => simp
  | cons y t ih =>
    have h1 : (x :: y :: t).foldl (fun peers v => peers.set 0 (some v.node)) ps =
        (y :: t).foldl (fun peers v => peers.set 0 (some v.node))
          (ps.set 0 (some x.node)) := by simp
    rw [h1, ih y (ps.set 0 (some x.node))]
    simp [List.set_set]

theorem getD_replicate_none (m i : Nat) :
    (List.replicate m (none : Option Node)).getD i none = none := by
  induction m generalizing i with
  | zero => simp
  | succ k ih =>
    cases i with
    | zero => simp [List.replicate_succ]
    | succ j => simpa [List.replicate_succ] using ih j

theorem sorted_getLast_max (rs : List qryResultInfo) (lst : qryResultInfo) :
    resultSorted rs → rs.getLast? = some lst → ∀ v ∈ rs, v.dist ≤ lst.dist := by
  induction rs with
  | nil =>
    intro _ hl
    simp at hl
  | cons x t ih =>
    intro hs hl v hv
    cases t with
    | nil =>
      have hx : x = lst := by simpa using hl
      have hv2 : v = x := List.mem_singleton.mp hv
      rw [hv2, hx]
    | cons y s =>
      rw [resultSorted, List.pairwise_cons] at hs
      rw [List.getLast?_cons_cons] at hl
      rcases List.mem_cons.mp hv with h1 | h1
      · have hmem : lst ∈ y :: s := by
          rcases List.mem_getLast?_eq_getLast (Option.mem_def.mpr hl) with ⟨hne, heq⟩
          rw [heq]
          exact List.getLast_mem hne
        rw [h1]
        exact hs.1 lst hmem
      · exact ih hs.2 hl v h1

/-- C10: whenever the result list is non-empty with length n and sorted
ascending by distance (as qcbUpdateResult keeps it), the Peers slice has
length n, its slot 0 holds the node of the last - largest-distance - element
of the result list, and the slots 1 through n-1 are all nil. -/
theorem c10_report_peers_only_slot_zero (rs : List qryResultInfo)
    (hne : rs ≠ []) (hs : resultSorted rs) :
    ∃ peers, qryMgrResultReportPeers rs = some peers ∧
      peers.length = rs.length ∧
      peers.getD 0 none = rs.getLast?.map (fun v => v.node) ∧
      (∀ i, 1 ≤ i → i < peers.length → peers.getD i none = none) ∧
      (∀ lst, rs.getLast? = some lst → ∀ v ∈ rs, v.dist ≤ lst.dist) := by
  match rs, hne with
  | x :: l, _ =>
    refine ⟨((x :: l).foldl (fun peers v => peers.set 0 (some v.node))
      (List.replicate (x :: l).length none)), ?_, ?_, ?_, ?_, ?_⟩
    · simp [qryMgrResultReportPeers]
    · rw [foldl_set_zero]; simp
    · rw [foldl_set_zero]
      rw [List.getLast?_eq_getLast_of_ne_nil (by simp : x :: l ≠ [])]
      have : List.replicate (x :: l).length (none : Option Node) =
          none :: List.replicate l.length none := by simp [List.replicate_succ]
      rw [this]
      simp
    · intro i h1 h2
      rw [foldl_set_zero] at h2 ⊢
      have : List.replicate (x :: l).length (none : Option Node) =
          none :: List.replicate l.length none := by simp [List.replicate_succ]
      rw [this] at h2 ⊢
      match i, h1 with
      | j + 1, _ =>
        simp only [List.set_cons_zero, List.getD_cons_succ]
        exact getD_replicate_none l.length j
    · intro lst hlst
      exact sorted_getLast_max (x :: l) lst hs hlst

/-- Concrete sorted result list for the C10 witness. -/
def c10Rs : List qryResultInfo :=
  [⟨⟨10, 1, 2, 3⟩, 0, 1⟩, ⟨⟨11, 4, 5, 6⟩, 0, 5⟩]

/-- C10 witness: the theorem applied to a concrete two-element result
list. -/
theorem c10_witness :
    c10Rs ≠ [] ∧ resultSorted c10Rs ∧
      (∃ peers, qryMgrResultReportPeers c10Rs = some peers ∧
        peers.length = c10Rs.length ∧
        peers.getD 0 none = c10Rs.getLast?.map (fun v => v.node) ∧
        (∀ i, 1 ≤ i → i < peers.length → peers.getD i none = none) ∧
        (∀ lst, c10Rs.getLast? = some lst → ∀ v ∈ c10Rs, v.dist ≤ lst.dist)) :=
  ⟨by decide, by simp [resultSorted, c10Rs],
    c10_report_peers_only_slot_zero c10Rs (by decide)
      (by simp [resultSorted, c10Rs])⟩

/-! ### query.go: query control blocks and the NAT switch (C1) -/

/-- qryPendingInfo from query.go: the bucket node (identity and distance)
plus the query depth. -/
structure qryPendingInfo where
  id : Nat
  dist : Nat
  depth : Nat
deriving DecidableEq, Repr

/-- The fields of qryCtrlBlock from query.go the verified handlers touch:
target key, owner task, ForWhat tag, pending queue, identities of the
activated instances, identities in the history. -/
structure qryCtrlBlock where
  target : Nat
  ptnOwner : Nat
  forWhat : Nat
  qryPending : List qryPendingInfo
  qryActived : List Nat
  qryHistory : List Nat
deriving DecidableEq, Repr

/-- Go map read qcbTab[target]. -/
def qcbLookup (tab : List qryCtrlBlock) (target : Nat) : Option qryCtrlBlock :=
  tab.find? (fun q => q.target == target)

/-- Write-back of a control block mutated through its pointer. -/
def qcbStore (tab : List qryCtrlBlock) (q : qryCtrlBlock) :
    List qryCtrlBlock :=
  tab.map (fun r => if r.target = q.target then q else r)

/-- qryMgrDelQcb from query.go, reduced to its table effect: the control
block of the target is removed from qcbTab (killing its timer, powering off
its instances and stopping route notifications are elided side effects). -/
def qryMgrDelQcb (tab : List qryCtrlBlock) (target : Nat) :
    List qryCtrlBlock :=
  tab.filter (fun q => q.target != target)

/-- Messages the query manager emits on the verified paths, reduced to the
fields the claims inspect. -/
inductive QryOut
  | fwd2ConMgr
  | queryResultInd (owner : Nat) (eno : Nat) (forWhat : Nat) (target : Nat)
  | pubAddrSwitchInd
deriving DecidableEq, Repr

/-- The query-manager fields involved in NAT address switching; localIp and
localTcp are the advertised address record qmCfg.local. -/
structure QryMgrNatSt where
  natTcpResult : Bool
  pubTcpIp : Nat
  pubTcpPort : Nat
  qcbTab : List qryCtrlBlock
  localIp : Nat
  localTcp : Nat
deriving DecidableEq, Repr

/-- natMapSwitch from query.go: report Eno NatMapping to the owner of every
outstanding control block and delete each of them, switch the local record
to the public pair (switch2NatAddr, with the port truncated to 16 bits), and
notify the DHT manager with a PubAddrSwitchInd. -/
def natMapSwitch (st : QryMgrNatSt) : QryMgrNatSt × List QryOut :=
  let reports := st.qcbTab.map (fun q =>
    QryOut.queryResultInd q.ptnOwner DhtEnoNatMapping q.forWhat q.target)
  let st1 := { st with qcbTab := [] }
  let st2 := { st1 with localIp := st1.pubTcpIp,
                        localTcp := st1.pubTcpPort % 65536 }
  (st2, reports ++ [QryOut.pubAddrSwitchInd])

/-- MsgNatMgrPubAddrUpdateInd, reduced to the inspected fields; statusOk is
nat.NatIsStatusOk of the carried status. -/
structure PubAddrUpdateInd where
  protoIsTcp : Bool
  pubIp : Nat
  pubPort : Nat
  statusOk : Bool
deriving DecidableEq, Repr

/-- natPubAddrUpdateInd from query.go. The indication is first forwarded to
the connection manager; a non-TCP protocol is rejected; a bad status only
stores the new result flag. For an OK status the handler stores the public
pair into pubTcpIp/pubTcpPort and only then evaluates the switch condition,
so its two inequality disjuncts compare the indication against the fields
just overwritten with it and the condition reduces to the old result flag
having been bad. -/
def natPubAddrUpdateInd (st : QryMgrNatSt) (ind : PubAddrUpdateInd) :
    QryMgrNatSt × List QryOut :=
  let outs := [QryOut.fwd2ConMgr]
  if ¬ ind.protoIsTcp then (st, outs)
  else
    let oldResult := st.natTcpResult
    let st1 := { st with natTcpResult := ind.statusOk }
    if ¬ ind.statusOk then (st1, outs)
    else
      let st2 := { st1 with pubTcpIp := ind.pubIp, pubTcpPort := ind.pubPort }
      if ¬ oldResult ∨ ¬ (ind.pubIp = st2.pubTcpIp) ∨
          ¬ (ind.pubPort = st2.pubTcpPort) then
        let res := natMapSwitch st2
        (res.1, outs ++ res.2)
      else (st2, outs)

/-- Failing input of C1, manager side: NAT previously OK, advertised pair
(1, 100), one outstanding control block. -/
def c1State : QryMgrNatSt :=
  { natTcpResult := true
    pubTcpIp := 1
    pubTcpPort := 100
    qcbTab := [⟨77, 9, MID_FINDNODE, [], [], []⟩]
    localIp := 1
    localTcp := 100 }

/-- Failing input of C1, indication side: TCP, OK status, the different
public pair (2, 200). -/
def c1Ind : PubAddrUpdateInd :=
  { protoIsTcp := true, pubIp := 2, pubPort := 200, statusOk := true }

/-- C1: on a TCP public-address update with OK status and a pair differing
from the advertised one, the handler merely stores the new pair and forwards
the indication: the outstanding control block is kept, no NatMapping result
indication and no PubAddrSwitchInd is emitted, and the local record keeps
the old address - the differing-pair test is evaluated after the fields it
compares against were overwritten. -/
theorem c1_no_switch_on_changed_pair :
    natPubAddrUpdateInd c1State c1Ind =
      ({ c1State with pubTcpIp := 2, pubTcpPort := 200 },
        [QryOut.fwd2ConMgr]) ∧
      (natPubAddrUpdateInd c1State c1Ind).1.qcbTab = c1State.qcbTab ∧
      (natPubAddrUpdateInd c1State c1Ind).1.localIp = 1 ∧
      (natPubAddrUpdateInd c1State c1Ind).1.localTcp = 100 ∧
      (natPubAddrUpdateInd c1State c1Ind).2.count QryOut.pubAddrSwitchInd = 0 ∧
      (natPubAddrUpdateInd c1State c1Ind).2.count
        (QryOut.queryResultInd 9 DhtEnoNatMapping MID_FINDNODE 77) = 0 := by
  refine ⟨by decide, by decide, by decide, by decide, by decide, by decide⟩

/-! ### query.go: instance completion of a query (C5) -/

/-- Query instance status qisDone from query.go (null, inited, waitConnect,
waitResponse are 0..3, done is 4, doneOk is 5). -/
def qisDone : Nat := 4

/-- Loop of qryMgrQcbPutActived from query.go: walk the pending queue while
there is room in the active set; every walked entry is removed from the
pending queue (the duplicates it skips included); a walked entry not already
active is activated and recorded in the history (instance task creation is
modeled as succeeding). -/
def putActivedLoop (maxAct : Nat) :
    List qryPendingInfo → List Nat → List Nat →
      List qryPendingInfo × List Nat × List Nat
  | [], act, hist => ([], act, hist)
  | p :: rest, act, hist =>
    if act.length ≥ maxAct then (p :: rest, act, hist)
    else if p.id ∈ act then putActivedLoop maxAct rest act hist
    else putActivedLoop maxAct rest (act ++ [p.id]) (hist ++ [p.id])

/-- qryMgrQcbPutActived from query.go: nothing happens without pendings or
without room in the active set; otherwise the walk above. -/
def qryMgrQcbPutActived (maxAct : Nat) (pending : List qryPendingInfo)
    (act hist : List Nat) : List qryPendingInfo × List Nat × List Nat :=
  if pending.length = 0 then (pending, act, hist)
  else if act.length ≥ maxAct then (pending, act, hist)
  else putActivedLoop maxAct pending act hist

/-- instStatusInd from query.go, status qisDone (every other status only
logs). The reporting instance is removed from the active set (qryMgrDelIcb),
pendings are moved into the freed room (qryMgrQcbPutActived), and when the
pending queue and the active set are then both empty, a final result
indication is reported - Eno None for PUT_VALUE/PUT_PROVIDER, NotFound
otherwise - and the control block is deleted. -/
def instStatusInd (maxAct : Nat) (tab : List qryCtrlBlock)
    (status target peer : Nat) : List qryCtrlBlock × List QryOut :=
  if status ≠ qisDone then (tab, [])
  else
    match qcbLookup tab target with
    | none => (tab, [])
    | some qcb =>
      if peer ∈ qcb.qryActived then
        let act1 := qcb.qryActived.erase peer
        let res := qryMgrQcbPutActived maxAct qcb.qryPending act1 qcb.qryHistory
        let qcb2 := { qcb with
          qryPending := res.1, qryActived := res.2.1, qryHistory := res.2.2 }
        let tab2 := qcbStore tab qcb2
        if qcb2.qryPending.length > 0 ∧ qcb2.qryActived.length < maxAct then
          (tab2, [])
        else if qcb2.qryPending.length = 0 ∧ qcb2.qryActived.length = 0 then
          let eno :=
            if qcb.forWhat = MID_PUTVALUE ∨ qcb.forWhat = MID_PUTPROVIDER
            then DhtEnoNone else DhtEnoNotFound
          (qryMgrDelQcb tab2 target,
            [QryOut.queryResultInd qcb.ptnOwner eno qcb.forWhat target])
        else (tab2, [])
      else (tab, [])

/-- Scheduler event of a put-value request (sch package, outside this tree;
only distinctness of the five event numbers matters here). -/
def EvDhtMgrPutValueReq : Nat := 100

/-- Scheduler event of a put-provider request. -/
def EvDhtMgrPutProviderReq : Nat := 101

/-- Scheduler event of a neighbors response from a connection instance. -/
def EvDhtConInstNeighbors : Nat := 102

/-- Scheduler event of a get-provider response from a connection instance. -/
def EvDhtConInstGetProviderRsp : Nat := 103

/-- Scheduler event of a get-value response from a connection instance. -/
def EvDhtConInstGetValRsp : Nat := 104

/-- Tail of instResultInd from query.go: once the response was processed (the
control block looked up and updated in the table), when the pending queue and
the active set are both empty a final result indication is reported - Eno
NotFound for the response events Neighbors, GetProviderRsp and GetValRsp, Eno
None for the two put events, the only other events passing the entry filter -
and the control block is deleted from the table. -/
def instResultIndDone (tab : List qryCtrlBlock) (target fwEv : Nat) :
    List qryCtrlBlock × List QryOut :=
  match qcbLookup tab target with
  | none => (tab, [])
  | some qcb =>
    if qcb.qryPending.length = 0 ∧ qcb.qryActived.length = 0 then
      let eno :=
        if fwEv = EvDhtConInstNeighbors ∨ fwEv = EvDhtConInstGetProviderRsp ∨
            fwEv = EvDhtConInstGetValRsp
        then DhtEnoNotFound else DhtEnoNone
      (qryMgrDelQcb tab target,
        [QryOut.queryResultInd qcb.ptnOwner eno qcb.forWhat target])
    else (tab, [])

theorem qcbLookup_delQcb (tab : List qryCtrlBlock) (target : Nat) :
    qcbLookup (qryMgrDelQcb tab target) target = none := by
  induction tab with
  | nil => rfl
  | cons q rest ih =>
    by_cases h : q.target = target
    · simpa [qryMgrDelQcb, qcbLookup, h] using ih
    · simpa [qryMgrDelQcb, qcbLookup, h] using ih

/-- C5: for a control block in state inited whose pending queue and active
set both become empty once the completed instance is removed and pendings
re-activated, the handler reports exactly one final result indication to the
owner - with Eno NotFound for FIND_NODE, GET_VALUE and GET_PROVIDER and Eno
None for PUT_VALUE and PUT_PROVIDER - and deletes the control block from the
table; and the same holds of the completion tail of instResultInd, where the
read/put split is keyed on the indication's event (Neighbors, GetProviderRsp
and GetValRsp being the responses of the three read queries, the put events
those of the two put queries). -/
theorem c5_empty_query_reports_and_deletes
    (maxAct : Nat) (tab : List qryCtrlBlock) (target peer : Nat)
    (qcb : qryCtrlBlock)
    (hq : qcbLookup tab target = some qcb)
    (hp : peer ∈ qcb.qryActived)
    (hpending :
      (qryMgrQcbPutActived maxAct qcb.qryPending (qcb.qryActived.erase peer)
        qcb.qryHistory).1 = [])
    (hactive :
      (qryMgrQcbPutActived maxAct qcb.qryPending (qcb.qryActived.erase peer)
        qcb.qryHistory).2.1 = []) :
    ((qcb.forWhat = MID_FINDNODE ∨ qcb.forWhat = MID_GETVALUE_REQ ∨
        qcb.forWhat = MID_GETPROVIDER_REQ →
      (instStatusInd maxAct tab qisDone target peer).2 =
        [QryOut.queryResultInd qcb.ptnOwner DhtEnoNotFound qcb.forWhat target]) ∧
     (qcb.forWhat = MID_PUTVALUE ∨ qcb.forWhat = MID_PUTPROVIDER →
      (instStatusInd maxAct tab qisDone target peer).2 =
        [QryOut.queryResultInd qcb.ptnOwner DhtEnoNone qcb.forWhat target]) ∧
     qcbLookup (instStatusInd maxAct tab qisDone target peer).1 target =
       none ∧
     (∀ tabR qcbR fwEv, qcbLookup tabR qcbR.target = some qcbR →
       qcbR.qryPending = [] → qcbR.qryActived = [] →
       ((fwEv = EvDhtConInstNeighbors ∨ fwEv = EvDhtConInstGetProviderRsp ∨
           fwEv = EvDhtConInstGetValRsp →
         (instResultIndDone tabR qcbR.target fwEv).2 =
           [QryOut.queryResultInd qcbR.ptnOwner DhtEnoNotFound qcbR.forWhat
             qcbR.target]) ∧
        (fwEv = EvDhtMgrPutValueReq ∨ fwEv = EvDhtMgrPutProviderReq →
         (instResultIndDone tabR qcbR.target fwEv).2 =
           [QryOut.queryResultInd qcbR.ptnOwner DhtEnoNone qcbR.forWhat
             qcbR.target]) ∧
        qcbLookup (instResultIndDone tabR qcbR.target fwEv).1 qcbR.target =
          none))) := by
  have hmain : instStatusInd maxAct tab qisDone target peer =
      (qryMgrDelQcb (qcbStore tab { qcb with
          qryPending := [], qryActived := [],
          qryHistory := (qryMgrQcbPutActived maxAct qcb.qryPending
            (qcb.qryActived.erase peer) qcb.qryHistory).2.2 }) target,
        [QryOut.queryResultInd qcb.ptnOwner
          (if qcb.forWhat = MID_PUTVALUE ∨ qcb.forWhat = MID_PUTPROVIDER
           then DhtEnoNone else DhtEnoNotFound) qcb.forWhat target]) := by
    simp [instStatusInd, hq, hp, hpending, hactive]
  refine ⟨?_, ?_, ?_, ?_⟩
  · intro hfw
    rw [hmain]
    have : ¬ (qcb.forWhat = MID_PUTVALUE ∨ qcb.forWhat = MID_PUTPROVIDER) := by
      rcases hfw with h | h | h <;>
        simp [h, MID_FINDNODE, MID_GETVALUE_REQ, MID_GETPROVIDER_REQ,
          MID_PUTVALUE, MID_PUTPROVIDER]
    simp [this]
  · intro hfw
    rw [hmain]
    simp [hfw]
  · rw [hmain]
    exact qcbLookup_delQcb _ target
  · intro tabR qcbR fwEv hlook hpend hact
    have hmain2 : instResultIndDone tabR qcbR.target fwEv =
        (qryMgrDelQcb tabR qcbR.target,
          [QryOut.queryResultInd qcbR.ptnOwner
            (if fwEv = EvDhtConInstNeighbors ∨
                fwEv = EvDhtConInstGetProviderRsp ∨
                fwEv = EvDhtConInstGetValRsp
             then DhtEnoNotFound else DhtEnoNone) qcbR.forWhat
            qcbR.target]) := by
      simp [instResultIndDone, hlook, hpend, hact]
    refine ⟨?_, ?_, ?_⟩
    · intro hfw
      rw [hmain2]
      simp [hfw]
    · intro hfw
      rw [hmain2]
      have : ¬ (fwEv = EvDhtConInstNeighbors ∨
          fwEv = EvDhtConInstGetProviderRsp ∨
          fwEv = EvDhtConInstGetValRsp) := by
        rcases hfw with h | h <;>
          simp [h, EvDhtMgrPutValueReq, EvDhtMgrPutProviderReq,
            EvDhtConInstNeighbors, EvDhtConInstGetProviderRsp,
            EvDhtConInstGetValRsp]
      simp [this]
    · rw [hmain2]
      exact qcbLookup_delQcb _ qcbR.target

/-- Control block of the C5 witness: a FIND_NODE query with one active
instance, empty pending queue and empty history. -/
def c5Qcb : qryCtrlBlock := ⟨5, 9, MID_FINDNODE, [], [33], []⟩

/-- Table of the C5 witness. -/
def c5Tab : List qryCtrlBlock := [c5Qcb]

/-- C5 witness: the theorem applied at the concrete table above, where the
33rd instance completing leaves the query without pendings and without
actives. -/
theorem c5_witness :
    qcbLookup c5Tab 5 = some c5Qcb ∧ 33 ∈ c5Qcb.qryActived ∧
      ((c5Qcb.forWhat = MID_FINDNODE ∨ c5Qcb.forWhat = MID_GETVALUE_REQ ∨
          c5Qcb.forWhat = MID_GETPROVIDER_REQ →
        (instStatusInd 8 c5Tab qisDone 5 33).2 =
          [QryOut.queryResultInd c5Qcb.ptnOwner DhtEnoNotFound c5Qcb.forWhat 5]) ∧
       (c5Qcb.forWhat = MID_PUTVALUE ∨ c5Qcb.forWhat = MID_PUTPROVIDER →
        (instStatusInd 8 c5Tab qisDone 5 33).2 =
          [QryOut.queryResultInd c5Qcb.ptnOwner DhtEnoNone c5Qcb.forWhat 5]) ∧
       qcbLookup (instStatusInd 8 c5Tab qisDone 5 33).1 5 = none ∧
       (∀ tabR qcbR fwEv, qcbLookup tabR qcbR.target = some qcbR →
         qcbR.qryPending = [] → qcbR.qryActived = [] →
         ((fwEv = EvDhtConInstNeighbors ∨ fwEv = EvDhtConInstGetProviderRsp ∨
             fwEv = EvDhtConInstGetValRsp →
           (instResultIndDone tabR qcbR.target fwEv).2 =
             [QryOut.queryResultInd qcbR.ptnOwner DhtEnoNotFound qcbR.forWhat
               qcbR.target]) ∧
          (fwEv = EvDhtMgrPutValueReq ∨ fwEv = EvDhtMgrPutProviderReq →
           (instResultIndDone tabR qcbR.target fwEv).2 =
             [QryOut.queryResultInd qcbR.ptnOwner DhtEnoNone qcbR.forWhat
               qcbR.target]) ∧
          qcbLookup (instResultIndDone tabR qcbR.target fwEv).1 qcbR.target =
            none))) :=
  ⟨by decide, by decide,
    c5_empty_query_reports_and_deletes 8 c5Tab 5 33 c5Qcb (by decide)
      (by decide) (by decide) (by decide)⟩

/-! ### peer.go: instance states and duplicate resolution (C3) -/

/-- Instance state from peer.go: null. -/
def peInstStateNull : Int := 0

/-- Instance state from peer.go: outbound connection inited. -/
def peInstStateConnOut : Int := 1

/-- Instance state from peer.go: inbound accepted. -/
def peInstStateAccepted : Int := 2

/-- Instance state from peer.go: outbound connected. -/
def peInstStateConnected : Int := 3

/-- Instance state from peer.go: handshook. -/
def peInstStateHandshook : Int := 4

/-- Instance state from peer.go: activated. -/
def peInstStateActivated : Int := 5

/-- Instance state from peer.go: in killing. -/
def peInstStateKilling : Int := -1

/-- Instance state from peer.go: killed. -/
def peInstStateKilled : Int := -2

/-- Connection direction of a peer instance. -/
inductive PeDir
  | inbound
  | outbound
deriving DecidableEq, Repr

/-- The peerInstance fields the duplicate resolution step inspects. -/
structure peerInstance where
  state : Int
  dir : PeDir
  snid : Nat
  nodeId : Nat
deriving DecidableEq, Repr

/-- peerInstState.compare from peer.go: panics (none) on a negative receiver
state, otherwise the difference of the two state values as integers. -/
def peerInstStateCompare (pis s : Int) : Option Int :=
  if pis < 0 then none else some (pis - s)

/-- Which of the two duplicate instances the state-compare step kills:
the instance whose handshake just completed (newInst) or the
opposite-direction one already in the nodes table (oldInst). -/
inductive KillChoice
  | newInst
  | oldInst
deriving DecidableEq, Repr

/-- Outcome of instStateCmpKill: the killed instance, whether the killed
side is the outbound one, and whether OutboundReq(snid) is re-driven. -/
structure CmpKillOut where
  choice : KillChoice
  obKilled : Bool
  redrive : Bool
deriving DecidableEq, Repr

/-- instStateCmpKill from peer.go for the case an opposite-direction
duplicate dupInst for the same (snid, NodeId) is present in the nodes table;
coin is the parity test of the random tie-break (rand masked with 1 being
zero). The instance with the smaller compare result is killed through
peMgrKillInst with its own direction; when the killed side is the outbound
one, OutboundReq(snid) is re-driven. A compare panic propagates as none. -/
def instStateCmpKill (inst dupInst : peerInstance) (coin : Bool) :
    Option CmpKillOut :=
  match peerInstStateCompare inst.state dupInst.state with
  | none => none
  | some cmp =>
    let choice :=
      if cmp < 0 then KillChoice.newInst
      else if cmp > 0 then KillChoice.oldInst
      else if coin then KillChoice.newInst else KillChoice.oldInst
    let killed :=
      match choice with
      | KillChoice.newInst => inst
      | KillChoice.oldInst => dupInst
    let obKilled := killed.dir == PeDir.outbound
    some { choice := choice, obKilled := obKilled, redrive := obKilled }

/-- The instance a kill choice removes. -/
def killedOf (inst dupInst : peerInstance) : KillChoice → peerInstance
  | KillChoice.newInst => inst
  | KillChoice.oldInst => dupInst

/-- The instance a kill choice leaves alive. -/
def survivorOf (inst dupInst : peerInstance) : KillChoice → peerInstance
  | KillChoice.newInst => dupInst
  | KillChoice.oldInst => inst

/-- C3: with an opposite-direction duplicate present, the state-compare
step kills exactly one of the two instances and leaves the other as the only
survivor; the victim is the one with the lower state value (in the integer
order null < connOut < accepted < connected < handshook < activated), the
pair being resolved by the coin when the states are equal; OutboundReq is
re-driven exactly when the killed side is the outbound instance. -/
theorem c3_duplicate_state_compare_kill (inst dupInst : peerInstance)
    (coin : Bool) (hstate : 0 ≤ inst.state) :
    ∃ out, instStateCmpKill inst dupInst coin = some out ∧
      (((killedOf inst dupInst out.choice, survivorOf inst dupInst out.choice) =
          (inst, dupInst)) ∨
        ((killedOf inst dupInst out.choice, survivorOf inst dupInst out.choice) =
          (dupInst, inst))) ∧
      (inst.state < dupInst.state → out.choice = KillChoice.newInst) ∧
      (dupInst.state < inst.state → out.choice = KillChoice.oldInst) ∧
      (inst.state = dupInst.state →
        out.choice = if coin then KillChoice.newInst else KillChoice.oldInst) ∧
      (killedOf inst dupInst out.choice).state ≤
        (survivorOf inst dupInst out.choice).state ∧
      out.obKilled = ((killedOf inst dupInst out.choice).dir == PeDir.outbound) ∧
      out.redrive = out.obKilled := by
  have hnp : ¬ inst.state < 0 := not_lt.mpr hstate
  by_cases h1 : inst.state < dupInst.state
  · have hc : inst.state - dupInst.state < 0 := by omega
    have hmain : instStateCmpKill inst dupInst coin =
        some ⟨KillChoice.newInst, inst.dir == PeDir.outbound,
          inst.dir == PeDir.outbound⟩ := by
      simp [instStateCmpKill, peerInstStateCompare, hnp, hc]
    refine ⟨_, hmain, ?_, ?_, ?_, ?_, ?_, ?_, ?_⟩
    · exact Or.inl rfl
    · intro _; rfl
    · intro h2; omega
    · intro h2; omega
    · simp only [killedOf, survivorOf]; omega
    · rfl
    · rfl
  · by_cases h2 : dupInst.state < inst.state
    · have hc : ¬ inst.state - dupInst.state < 0 := by omega
      have hc2 : inst.state - dupInst.state > 0 := by omega
      have hmain : instStateCmpKill inst dupInst coin =
          some ⟨KillChoice.oldInst, dupInst.dir == PeDir.outbound,
            dupInst.dir == PeDir.outbound⟩ := by
        simp [instStateCmpKill, peerInstStateCompare, hnp, hc, hc2]
      refine ⟨_, hmain, ?_, ?_, ?_, ?_, ?_, ?_, ?_⟩
      · exact Or.inr rfl
      · intro h3; omega
      · intro _; rfl
      · intro h3; omega
      · simp only [killedOf, survivorOf]; omega
      · rfl
      · rfl
    · have heq : inst.state = dupInst.state := by omega
      have hc : ¬ inst.state - dupInst.state < 0 := by omega
      have hc2 : ¬ inst.state - dupInst.state > 0 := by omega
      cases coin with
      | true =>
        have hmain : instStateCmpKill inst dupInst true =
            some ⟨KillChoice.newInst, inst.dir == PeDir.outbound,
              inst.dir == PeDir.outbound⟩ := by
          simp [instStateCmpKill, peerInstStateCompare, hnp, hc, hc2]
        refine ⟨_, hmain, ?_, ?_, ?_, ?_, ?_, ?_, ?_⟩
        · exact Or.inl rfl
        · intro h3; omega
        · intro h3; omega
        · intro _; rfl
        · simp only [killedOf, survivorOf]; omega
        · rfl
        · rfl
      | false =>
        have hmain : instStateCmpKill inst dupInst false =
            some ⟨KillChoice.oldInst, dupInst.dir == PeDir.outbound,
              dupInst.dir == PeDir.outbound⟩ := by
          simp [instStateCmpKill, peerInstStateCompare, hnp, hc, hc2]
        refine ⟨_, hmain, ?_, ?_, ?_, ?_, ?_, ?_, ?_⟩
        · exact Or.inr rfl
        · intro h3; omega
        · intro h3; omega
        · intro _; rfl
        · simp only [killedOf, survivorOf]; omega
        · rfl
        · rfl

/-- New inbound instance (handshook) of the C3 witness. -/
def c3New : peerInstance := ⟨peInstStateHandshook, PeDir.inbound, 3, 42⟩

/-- Old outbound instance (still connecting) of the C3 witness. -/
def c3Old : peerInstance := ⟨peInstStateConnOut, PeDir.outbound, 3, 42⟩

/-- C3 witness: the theorem applied at a handshook inbound instance against
a lower-state outbound duplicate. -/
theorem c3_witness :
    0 ≤ c3New.state ∧
      (∃ out, instStateCmpKill c3New c3Old true = some out ∧
        (((killedOf c3New c3Old out.choice, survivorOf c3New c3Old out.choice) =
            (c3New, c3Old)) ∨
          ((killedOf c3New c3Old out.choice, survivorOf c3New c3Old out.choice) =
            (c3Old, c3New))) ∧
        (c3New.state < c3Old.state → out.choice = KillChoice.newInst) ∧
        (c3Old.state < c3New.state → out.choice = KillChoice.oldInst) ∧
        (c3New.state = c3Old.state →
          out.choice = if true then KillChoice.newInst else KillChoice.oldInst) ∧
        (killedOf c3New c3Old out.choice).state ≤
          (survivorOf c3New c3Old out.choice).state ∧
        out.obKilled = ((killedOf c3New c3Old out.choice).dir == PeDir.outbound) ∧
        out.redrive = out.obKilled) :=
  ⟨by decide, c3_duplicate_state_compare_kill c3New c3Old true (by decide)⟩

/-! ### peer.go: pingpong heartbeat (C6) -/

/-- Constant PeInstMaxPingpongCnt from peer.go. -/
def PeInstMaxPingpongCnt : Nat := 8

/-- piPingpongTimerHandler from peer.go: increment ppCnt; when the new value
exceeds PeInstMaxPingpongCnt, record PingpongTh and request the manager to
close the peer (flag true); otherwise send the next Ping (flag false). -/
def piPingpongTimerHandler (ppCnt : Nat) : Nat × Bool :=
  let c := ppCnt + 1
  if c > PeInstMaxPingpongCnt then (c, true) else (c, false)

/-- piP2pPingProc from peer.go: a received Ping resets ppCnt to 0 (and a
Pong is sent back). -/
def piP2pPingProc (ppCnt : Nat) : Nat := 0

/-- Effect of n consecutive pingpong timer ticks starting at counter c with
no Ping received in between: true when some tick requested the close. -/
def pingpongTicksClose : Nat → Nat → Bool
  | _, 0 => false
  | c, n + 1 =>
    ((piPingpongTimerHandler c).2) || pingpongTicksClose (piPingpongTimerHandler c).1 n

theorem pingpongTicksClose_iff (c n : Nat) :
    pingpongTicksClose c n = true ↔ 1 ≤ n ∧ 8 < c + n := by
  induction n generalizing c with
  | zero => simp [pingpongTicksClose]
  | succ k ih =>
    have hstep : pingpongTicksClose c (k + 1) =
        (decide (8 < c + 1) || pingpongTicksClose (c + 1) k) := by
      simp only [pingpongTicksClose, piPingpongTimerHandler,
        PeInstMaxPingpongCnt]
      by_cases h : c + 1 > 8 <;> simp [h]
    rw [hstep, Bool.or_eq_true, decide_eq_true_iff, ih (c + 1)]
    omega

/-- C6: every pingpong timer tick increments ppCnt, and the tick requests a
close with PingpongThreshold exactly when the incremented counter exceeds 8
(never while it is 8 or less); every received Ping resets ppCnt to 0; hence,
from a reset counter, a run of consecutive unanswered ticks requests the
close exactly when it is at least nine ticks long - on the ninth cycle. -/
theorem c6_pingpong_close_on_ninth_tick :
    (∀ c, (piPingpongTimerHandler c).1 = c + 1 ∧
      ((piPingpongTimerHandler c).2 = true ↔ 8 < c + 1)) ∧
    (∀ c, piP2pPingProc c = 0) ∧
    (∀ n, pingpongTicksClose 0 n = true ↔ 9 ≤ n) := by
  refine ⟨fun c => ⟨?_, ?_⟩, fun _ => rfl, fun n => ?_⟩
  · simp only [piPingpongTimerHandler, PeInstMaxPingpongCnt]
    by_cases h : c + 1 > 8 <;> simp [h]
  · simp only [piPingpongTimerHandler, PeInstMaxPingpongCnt]
    by_cases h : c + 1 > 8 <;> simp [h]
  · rw [pingpongTicksClose_iff]
    omega

/-! ### peer.go: inbound admission counters (C4)

The model keeps the inbound slice of the peers map: each live inbound
instance with its sub-network (learned during the handshake) and state.
Outbound instances never touch ibpNum or ibpTotalNum in the source, so they
are not carried. The worker/cap/duplicate checks of peMgrHandshakeRsp read
tables not modeled here; the branch actually taken is therefore a parameter
of that handler, each branch reproducing the counter effects of its source
path. -/

/-- The fields of an inbound peer instance the admission counters depend
on: the key of the peers map (the task pointer, abstracted), the
sub-network identity, the state. -/
structure ibInstance where
  iid : Nat
  snid : Nat
  state : Int
deriving DecidableEq, Repr

/-- Go map read peers[iid] restricted to inbound instances. -/
def findInst (l : List ibInstance) (iid : Nat) : Option ibInstance :=
  l.find? (fun i => i.iid == iid)

/-- Write through the pointer found under a map key: replace the first
instance carrying the key. -/
def updateInst (l : List ibInstance) (iid : Nat)
    (f : ibInstance → ibInstance) : List ibInstance :=
  match l with
  | [] => []
  | i :: rest => if i.iid = iid then f i :: rest else i :: updateInst rest iid f

/-- Go map delete of the instance carrying the key. -/
def removeInst (l : List ibInstance) (iid : Nat) : List ibInstance :=
  match l with
  | [] => []
  | i :: rest => if i.iid = iid then rest else i :: removeInst rest iid

theorem updateInst_of_none (l : List ibInstance) (iid : Nat)
    (f : ibInstance → ibInstance) (h : findInst l iid = none) :
    updateInst l iid f = l := by
  induction l with
  | nil => rfl
  | cons i rest ih =>
    by_cases hi : i.iid = iid
    · simp [findInst, List.find?_cons, hi] at h
    · rw [updateInst, if_neg hi]
      have h2 : findInst rest iid = none := by
        simpa [findInst, List.find?_cons, hi] using h
      rw [ih h2]

theorem length_updateInst (l : List ibInstance) (iid : Nat)
    (f : ibInstance → ibInstance) :
    (updateInst l iid f).length = l.length := by
  induction l with
  | nil => rfl
  | cons i rest ih =>
    by_cases hi : i.iid = iid
    · simp [updateInst, hi]
    · simp [updateInst, hi, ih]

theorem countP_updateInst (l : List ibInstance) (iid : Nat)
    (f : ibInstance → ibInstance) (p : ibInstance → Bool)
    (inst : ibInstance) (h : findInst l iid = some inst) :
    (updateInst l iid f).countP p + (if p inst then 1 else 0) =
      l.countP p + (if p (f inst) then 1 else 0) := by
  induction l with
  | nil => simp [findInst] at h
  | cons i rest ih =>
    by_cases hi : i.iid = iid
    · rw [findInst, List.find?_cons_of_pos _ (by simp [hi])] at h
      have hinst : inst = i := (Option.some.inj h).symm
      subst hinst
      rw [updateInst, if_pos hi]
      simp only [List.countP_cons]
      omega
    · rw [findInst, List.find?_cons_of_neg _ (by simp [hi])] at h
      rw [updateInst, if_neg hi]
      simp only [List.countP_cons]
      have := ih (by simpa [findInst] using h)
      omega

theorem length_removeInst (l : List ibInstance) (iid : Nat)
    (inst : ibInstance) (h : findInst l iid = some inst) :
    (removeInst l iid).length + 1 = l.length := by
  induction l with
  | nil => simp [findInst] at h
  | cons i rest ih =>
    by_cases hi : i.iid = iid
    · simp [removeInst, hi]
    · rw [findInst, List.find?_cons_of_neg _ (by simp [hi])] at h
      have := ih (by simpa [findInst] using h)
      simp only [removeInst, if_neg hi, List.length_cons]
      omega

theorem countP_removeInst (l : List ibInstance) (iid : Nat)
    (p : ibInstance → Bool) (inst : ibInstance)
    (h : findInst l iid = some inst) :
    (removeInst l iid).countP p + (if p inst then 1 else 0) = l.countP p := by
  induction l with
  | nil => simp [findInst] at h
  | cons i rest ih =>
    by_cases hi : i.iid = iid
    · rw [findInst, List.find?_cons_of_pos _ (by simp [hi])] at h
      have hinst : inst = i := (Option.some.inj h).symm
      subst hinst
      rw [removeInst, if_pos hi]
      simp only [List.countP_cons]
    · rw [findInst, List.find?_cons_of_neg _ (by simp [hi])] at h
      rw [removeInst, if_neg hi]
      simp only [List.countP_cons]
      have := ih (by simpa [findInst] using h)
      omega

/-- The peer-manager state relevant to the inbound admission counters: the
live inbound instances, the per-sub-network active inbound count ibpNum
(Go map with zero default), the total ibpTotalNum, and the configuration
fields cfg.ibpNumTotal (the cap) and cfg.noAccept. -/
structure PeMgrIbSt where
  insts : List ibInstance
  ibpNum : Nat → Int
  ibpTotalNum : Int
  ibpNumTotal : Int
  noAccept : Bool

/-- peMgrLsnConnAcceptedInd from peer.go, counter part: a new inbound
instance in state accepted joins the peers map (a handshake request is sent
to it; its sub-network is not known yet - zero value), ibpTotalNum is
incremented, and when the incremented total has reached the configured cap
while accepting is enabled, a listener stop request is sent; the returned
flag tells whether that pause request was sent. -/
def peMgrLsnConnAcceptedInd (st : PeMgrIbSt) (iid : Nat) : PeMgrIbSt × Bool :=
  let st1 := { st with
    insts := st.insts ++ [⟨iid, 0, peInstStateAccepted⟩]
    ibpTotalNum := st.ibpTotalNum + 1 }
  (st1, decide (st1.ibpTotalNum ≥ st1.ibpNumTotal) && !st1.noAccept)

/-- piHandshakeInbound from peer.go, state part: the instance task reads
the peer handshake on an accepted instance, learns the sub-network and the
peer identity, and moves to handshook. -/
def piHandshakeInbound (st : PeMgrIbSt) (iid snid : Nat) : PeMgrIbSt :=
  { st with
    insts := updateInst st.insts iid (fun i =>
      if i.state = peInstStateAccepted
      then { i with snid := snid, state := peInstStateHandshook } else i) }

/-- peMgrKillInst from peer.go for an inbound instance: the instance leaves
the maps, ibpTotalNum is decremented, ibpNum of its sub-network is
decremented only when its state is activated or killing, and a listener
start request is sent when accepting is enabled and the total is now below
the cap; the returned flag tells whether that resume request was sent. -/
def peMgrKillInstIb (st : PeMgrIbSt) (iid : Nat) : PeMgrIbSt × Bool :=
  match findInst st.insts iid with
  | none => (st, false)
  | some inst =>
    let st1 := { st with
      insts := removeInst st.insts iid
      ibpTotalNum := st.ibpTotalNum - 1
      ibpNum :=
        if inst.state = peInstStateActivated ∨ inst.state = peInstStateKilling
        then fun s => if s = inst.snid then st.ibpNum s - 1 else st.ibpNum s
        else st.ibpNum }
    (st1, !st1.noAccept && decide (st1.ibpTotalNum < st1.ibpNumTotal))

/-- Branch taken by peMgrHandshakeRsp for an inbound instance; it fixes the
outcome of the checks the handler performs against state not carried in this
model (the result code, the worker caps and tables, the opposite-direction
duplicate and its state-compare coin). -/
inductive HsRspBranch
  | fail
  | wrkFull
  | ibpFull
  | workerDup
  | dupKillNew
  | dupKillOld
  | admitPeer
deriving DecidableEq, Repr

/-- peMgrHandshakeRsp from peer.go for an inbound instance, counter part.
The branches fail (bad handshake result), wrkFull (worker cap), ibpFull
(inbound cap), workerDup (inbound worker exists) and dupKillNew (the
state-compare step killed this instance) all kill the handshaking instance;
dupKillOld kills the opposite outbound instance - which changes no inbound
counter - and still returns Duplicated without admitting; admitPeer puts the
instance into nodes/workers, increments ibpNum of its sub-network and
activates it. A success response is produced by the instance exactly once,
right after its handshake completed, so admission acts on a handshook
instance. -/
def peMgrHandshakeRspIb (st : PeMgrIbSt) (iid : Nat) (br : HsRspBranch) :
    PeMgrIbSt × Bool :=
  match findInst st.insts iid with
  | none => (st, false)
  | some inst =>
    match br with
    | HsRspBranch.fail => peMgrKillInstIb st iid
    | HsRspBranch.wrkFull => peMgrKillInstIb st iid
    | HsRspBranch.ibpFull => peMgrKillInstIb st iid
    | HsRspBranch.workerDup => peMgrKillInstIb st iid
    | HsRspBranch.dupKillNew => peMgrKillInstIb st iid
    | HsRspBranch.dupKillOld => (st, false)
    | HsRspBranch.admitPeer =>
      if inst.state = peInstStateHandshook then
        ({ st with
          insts := updateInst st.insts iid
            (fun i => { i with state := peInstStateActivated })
          ibpNum := fun s =>
            if s = inst.snid then st.ibpNum s + 1 else st.ibpNum s }, false)
      else (st, false)

/-- peMgrCloseReq with piCloseReq from peer.go, state part: an activated
worker moves to killing (a request against an instance already in killing is
rejected as Duplicated). -/
def peMgrCloseReqIb (st : PeMgrIbSt) (iid : Nat) : PeMgrIbSt :=
  { st with
    insts := updateInst st.insts iid (fun i =>
      if i.state = peInstStateActivated
      then { i with state := peInstStateKilling } else i) }

/-- State of the peer manager after peMgrPoweron: no inbound instances, all
counters zero. -/
def peMgrInit (cap : Int) (noAcc : Bool) : PeMgrIbSt :=
  { insts := []
    ibpNum := fun _ => 0
    ibpTotalNum := 0
    ibpNumTotal := cap
    noAccept := noAcc }

/-- Peer-manager states reachable through the message handlers that touch
inbound instances and their counters. -/
inductive PeReachable (cap : Int) (noAcc : Bool) : PeMgrIbSt → Prop
  | init : PeReachable cap noAcc (peMgrInit cap noAcc)
  | accept (st : PeMgrIbSt) (iid : Nat) : PeReachable cap noAcc st →
      PeReachable cap noAcc (peMgrLsnConnAcceptedInd st iid).1
  | handshake (st : PeMgrIbSt) (iid snid : Nat) : PeReachable cap noAcc st →
      PeReachable cap noAcc (piHandshakeInbound st iid snid)
  | hsRsp (st : PeMgrIbSt) (iid : Nat) (br : HsRspBranch) :
      PeReachable cap noAcc st →
      PeReachable cap noAcc (peMgrHandshakeRspIb st iid br).1
  | closeReq (st : PeMgrIbSt) (iid : Nat) : PeReachable cap noAcc st →
      PeReachable cap noAcc (peMgrCloseReqIb st iid)
  | kill (st : PeMgrIbSt) (iid : Nat) : PeReachable cap noAcc st →
      PeReachable cap noAcc (peMgrKillInstIb st iid).1

/-- An inbound instance counted by ibpNum: activated or killing. -/
def ibAdmitted (i : ibInstance) : Bool :=
  i.state == peInstStateActivated || i.state == peInstStateKilling

/-- Number of admitted inbound instances of a sub-network. -/
def admittedIn (l : List ibInstance) (s : Nat) : Nat :=
  l.countP (fun i => ibAdmitted i && i.snid == s)

/-- The counter invariant: ibpTotalNum counts the live inbound instances,
and each ibpNum entry counts the admitted ones of its sub-network; the
configuration fields are constant. -/
def PeInv (cap : Int) (noAcc : Bool) (st : PeMgrIbSt) : Prop :=
  st.ibpTotalNum = (st.insts.length : Int) ∧
  (∀ s, st.ibpNum s = (admittedIn st.insts s : Int)) ∧
  st.ibpNumTotal = cap ∧ st.noAccept = noAcc

theorem peInv_accept (cap : Int) (noAcc : Bool) (st : PeMgrIbSt) (iid : Nat)
    (h : PeInv cap noAcc st) :
    PeInv cap noAcc (peMgrLsnConnAcceptedInd st iid).1 := by
  obtain ⟨h1, h2, h3, h4⟩ := h
  refine ⟨?_, ?_, h3, h4⟩
  · simp only [peMgrLsnConnAcceptedInd, List.length_append, List.length_cons,
      List.length_nil]
    push_cast
    omega
  · intro s
    have hadm : (fun i => ibAdmitted i && i.snid == s)
        ⟨iid, 0, peInstStateAccepted⟩ = false := rfl
    simp only [peMgrLsnConnAcceptedInd, admittedIn, List.countP_append,
      List.countP_cons, List.countP_nil, hadm]
    simpa [admittedIn] using h2 s

theorem peInv_handshake (cap : Int) (noAcc : Bool) (st : PeMgrIbSt)
    (iid snid : Nat) (h : PeInv cap noAcc st) :
    PeInv cap noAcc (piHandshakeInbound st iid snid) := by
  obtain ⟨h1, h2, h3, h4⟩ := h
  refine ⟨?_, ?_, h3, h4⟩
  · simpa [piHandshakeInbound, length_updateInst] using h1
  · intro s
    cases hf : findInst st.insts iid with
    | none =>
      simp only [piHandshakeInbound, updateInst_of_none _ _ _ hf]
      exact h2 s
    | some inst =>
      have hcount := countP_updateInst st.insts iid
        (fun i => if i.state = peInstStateAccepted
          then { i with snid := snid, state := peInstStateHandshook } else i)
        (fun i => ibAdmitted i && i.snid == s) inst hf
      have hsame : (fun i => ibAdmitted i && i.snid == s)
          (if inst.state = peInstStateAccepted
            then { inst with snid := snid, state := peInstStateHandshook }
            else inst) =
          ((fun i => ibAdmitted i && i.snid == s) inst) := by
        by_cases hst : inst.state = peInstStateAccepted
        · simp [hst, ibAdmitted, peInstStateAccepted, peInstStateActivated,
            peInstStateKilling, peInstStateHandshook]
        · simp [hst]
      rw [hsame] at hcount
      simp only [piHandshakeInbound, admittedIn] at h2 ⊢
      rw [h2 s]
      omega

theorem peInv_kill (cap : Int) (noAcc : Bool) (st : PeMgrIbSt) (iid : Nat)
    (h : PeInv cap noAcc st) :
    PeInv cap noAcc (peMgrKillInstIb st iid).1 := by
  obtain ⟨h1, h2, h3, h4⟩ := h
  cases hf : findInst st.insts iid with
  | none =>
    have hid : (peMgrKillInstIb st iid).1 = st := by
      simp [peMgrKillInstIb, hf]
    rw [hid]
    exact ⟨h1, h2, h3, h4⟩
  | some inst =>
    have hlen := length_removeInst st.insts iid inst hf
    have hmain : (peMgrKillInstIb st iid).1 = { st with
        insts := removeInst st.insts iid
        ibpTotalNum := st.ibpTotalNum - 1
        ibpNum :=
          if inst.state = peInstStateActivated ∨ inst.state = peInstStateKilling
          then fun s => if s = inst.snid then st.ibpNum s - 1 else st.ibpNum s
          else st.ibpNum } := by
      simp [peMgrKillInstIb, hf]
    rw [hmain]
    refine ⟨?_, ?_, h3, h4⟩
    · show st.ibpTotalNum - 1 = ((removeInst st.insts iid).length : Int)
      omega
    · intro s
      show ((if inst.state = peInstStateActivated ∨
          inst.state = peInstStateKilling
          then fun s => if s = inst.snid then st.ibpNum s - 1 else st.ibpNum s
          else st.ibpNum) s) = (admittedIn (removeInst st.insts iid) s : Int)
      have hcount := countP_removeInst st.insts iid
        (fun i => ibAdmitted i && i.snid == s) inst hf
      have hadm : (inst.state = peInstStateActivated ∨
          inst.state = peInstStateKilling) ↔ ibAdmitted inst = true := by
        simp [ibAdmitted]
      by_cases hA : inst.state = peInstStateActivated ∨
          inst.state = peInstStateKilling
      · have hA2 : ibAdmitted inst = true := hadm.mp hA
        by_cases hs : s = inst.snid
        · have hp : (fun i => ibAdmitted i && i.snid == s) inst = true := by
            simp [hA2, hs]
          rw [hp] at hcount
          have hcount2 : admittedIn (removeInst st.insts iid) s + 1 =
              admittedIn st.insts s := by
            simpa [admittedIn] using hcount
          rw [if_pos hA]
          rw [if_pos hs, h2 s]
          omega
        · have hp : (fun i => ibAdmitted i && i.snid == s) inst = false := by
            have hns : (inst.snid == s) = false := by
              simp only [beq_eq_false_iff_ne, ne_eq]
              omega
            simp [hns]
          rw [hp] at hcount
          have hcount2 : admittedIn (removeInst st.insts iid) s =
              admittedIn st.insts s := by
            simpa [admittedIn] using hcount
          rw [if_pos hA]
          rw [if_neg hs, h2 s]
          omega
      · have hA2 : ibAdmitted inst = false :=
          Bool.eq_false_iff.mpr (fun hb => hA (hadm.mpr hb))
        have hp : (fun i => ibAdmitted i && i.snid == s) inst = false := by
          simp [hA2]
        rw [hp] at hcount
        have hcount2 : admittedIn (removeInst st.insts iid) s =
            admittedIn st.insts s := by
          simpa [admittedIn] using hcount
        rw [if_neg hA, h2 s]
        omega

theorem peInv_hsRsp (cap : Int) (noAcc : Bool) (st : PeMgrIbSt) (iid : Nat)
    (br : HsRspBranch) (h : PeInv cap noAcc st) :
    PeInv cap noAcc (peMgrHandshakeRspIb st iid br).1 := by
  obtain ⟨h1, h2, h3, h4⟩ := h
  cases hf : findInst st.insts iid with
  | none =>
    have : (peMgrHandshakeRspIb st iid br).1 = st := by
      simp [peMgrHandshakeRspIb, hf]
    rw [this]
    exact ⟨h1, h2, h3, h4⟩
  | some inst =>
    have hkill : PeInv cap noAcc (peMgrKillInstIb st iid).1 :=
      peInv_kill cap noAcc st iid ⟨h1, h2, h3, h4⟩
    cases br with
    | fail =>
      have he : (peMgrHandshakeRspIb st iid HsRspBranch.fail).1 =
          (peMgrKillInstIb st iid).1 := by
        simp [peMgrHandshakeRspIb, hf]
      rw [he]; exact hkill
    | wrkFull =>
      have he : (peMgrHandshakeRspIb st iid HsRspBranch.wrkFull).1 =
          (peMgrKillInstIb st iid).1 := by
        simp [peMgrHandshakeRspIb, hf]
      rw [he]; exact hkill
    | ibpFull =>
      have he : (peMgrHandshakeRspIb st iid HsRspBranch.ibpFull).1 =
          (peMgrKillInstIb st iid).1 := by
        simp [peMgrHandshakeRspIb, hf]
      rw [he]; exact hkill
    | workerDup =>
      have he : (peMgrHandshakeRspIb st iid HsRspBranch.workerDup).1 =
          (peMgrKillInstIb st iid).1 := by
        simp [peMgrHandshakeRspIb, hf]
      rw [he]; exact hkill
    | dupKillNew =>
      have he : (peMgrHandshakeRspIb st iid HsRspBranch.dupKillNew).1 =
          (peMgrKillInstIb st iid).1 := by
        simp [peMgrHandshakeRspIb, hf]
      rw [he]; exact hkill
    | dupKillOld =>
      have he : (peMgrHandshakeRspIb st iid HsRspBranch.dupKillOld).1 = st := by
        simp [peMgrHandshakeRspIb, hf]
      rw [he]
      exact ⟨h1, h2, h3, h4⟩
    | admitPeer =>
      by_cases hst : inst.state = peInstStateHandshook
      · have hmain : (peMgrHandshakeRspIb st iid HsRspBranch.admitPeer).1 =
            { st with
              insts := updateInst st.insts iid
                (fun i => { i with state := peInstStateActivated })
              ibpNum := fun s =>
                if s = inst.snid then st.ibpNum s + 1 else st.ibpNum s } := by
          simp [peMgrHandshakeRspIb, hf, hst]
        rw [hmain]
        refine ⟨?_, ?_, h3, h4⟩
        · show st.ibpTotalNum =
            ((updateInst st.insts iid
              (fun i => { i with state := peInstStateActivated })).length : Int)
          rw [length_updateInst]
          exact h1
        · intro s
          have hcount := countP_updateInst st.insts iid
            (fun i => { i with state := peInstStateActivated })
            (fun i => ibAdmitted i && i.snid == s) inst hf
          have hold : (fun i => ibAdmitted i && i.snid == s) inst = false := by
            simp [ibAdmitted, hst, peInstStateHandshook, peInstStateActivated,
              peInstStateKilling]
          have hnew : (fun i => ibAdmitted i && i.snid == s)
              { inst with state := peInstStateActivated } =
              (inst.snid == s) := by
            simp [ibAdmitted]
          rw [hold, hnew] at hcount
          by_cases hs : s = inst.snid
          · have hbe : (inst.snid == s) = true := by simp [hs]
            rw [hbe] at hcount
            have hcount2 : admittedIn (updateInst st.insts iid
                (fun i => { i with state := peInstStateActivated })) s =
                admittedIn st.insts s + 1 := by
              simpa [admittedIn] using hcount
            show (if s = inst.snid then st.ibpNum s + 1 else st.ibpNum s) = _
            rw [if_pos hs, h2 s, hcount2]
            push_cast
            omega
          · have hbe : (inst.snid == s) = false := by
              simp only [beq_eq_false_iff_ne, ne_eq]
              omega
            rw [hbe] at hcount
            have hcount2 : admittedIn (updateInst st.insts iid
                (fun i => { i with state := peInstStateActivated })) s =
                admittedIn st.insts s := by
              simpa [admittedIn] using hcount
            show (if s = inst.snid then st.ibpNum s + 1 else st.ibpNum s) = _
            rw [if_neg hs, h2 s, hcount2]
      · have he : (peMgrHandshakeRspIb st iid HsRspBranch.admitPeer).1 = st := by
          simp [peMgrHandshakeRspIb, hf, hst]
        rw [he]
        exact ⟨h1, h2, h3, h4⟩

theorem peInv_closeReq (cap : Int) (noAcc : Bool) (st : PeMgrIbSt) (iid : Nat)
    (h : PeInv cap noAcc st) :
    PeInv cap noAcc (peMgrCloseReqIb st iid) := by
  obtain ⟨h1, h2, h3, h4⟩ := h
  refine ⟨?_, ?_, h3, h4⟩
  · simpa [peMgrCloseReqIb, length_updateInst] using h1
  · intro s
    cases hf : findInst st.insts iid with
    | none =>
      simp only [peMgrCloseReqIb, updateInst_of_none _ _ _ hf]
      exact h2 s
    | some inst =>
      have hcount := countP_updateInst st.insts iid
        (fun i => if i.state = peInstStateActivated
          then { i with state := peInstStateKilling } else i)
        (fun i => ibAdmitted i && i.snid == s) inst hf
      have hsame : (fun i => ibAdmitted i && i.snid == s)
          (if inst.state = peInstStateActivated
            then { inst with state := peInstStateKilling } else inst) =
          ((fun i => ibAdmitted i && i.snid == s) inst) := by
        by_cases hst : inst.state = peInstStateActivated
        · simp [hst, ibAdmitted, peInstStateActivated, peInstStateKilling]
        · simp [hst]
      rw [hsame] at hcount
      simp only [peMgrCloseReqIb, admittedIn] at h2 ⊢
      rw [h2 s]
      omega

theorem peInv_reachable (cap : Int) (noAcc : Bool) (st : PeMgrIbSt)
    (h : PeReachable cap noAcc st) : PeInv cap noAcc st := by
  induction h with
  | init => exact ⟨rfl, fun s => rfl, rfl, rfl⟩
  | accept st iid hst ih => exact peInv_accept cap noAcc st iid ih
  | handshake st iid snid hst ih => exact peInv_handshake cap noAcc st iid snid ih
  | hsRsp st iid br hst ih => exact peInv_hsRsp cap noAcc st iid br ih
  | closeReq st iid hst ih => exact peInv_closeReq cap noAcc st iid ih
  | kill st iid hst ih => exact peInv_kill cap noAcc st iid ih

/-- C4 (amended): in every reachable peer-manager state, ibpTotalNum counts
the live inbound instances while each ibpNum entry counts only the admitted
ones (activated or killing) of its sub-network - so the ibpNum entries sum
to at most ibpTotalNum, with equality only when no inbound instance sits
between acceptance and admission; the accept handler requests the listener
stop exactly when the incremented total has reached the configured cap and
accepting is enabled, and removing an inbound instance requests the listener
start exactly when accepting is enabled and the decremented total is below
the cap. -/
theorem c4_inbound_counters_amended (cap : Int) (noAcc : Bool)
    (st : PeMgrIbSt) (h : PeReachable cap noAcc st) :
    st.ibpTotalNum = (st.insts.length : Int) ∧
    (∀ s, st.ibpNum s = (admittedIn st.insts s : Int)) ∧
    ((st.insts.countP ibAdmitted : Int) ≤ st.ibpTotalNum) ∧
    (∀ iid, (peMgrLsnConnAcceptedInd st iid).2 = true ↔
      (st.ibpTotalNum + 1 ≥ cap ∧ noAcc = false)) ∧
    (∀ iid inst, findInst st.insts iid = some inst →
      ((peMgrKillInstIb st iid).2 = true ↔
        (noAcc = false ∧ st.ibpTotalNum - 1 < cap))) := by
  obtain ⟨h1, h2, h3, h4⟩ := peInv_reachable cap noAcc st h
  refine ⟨h1, h2, ?_, ?_, ?_⟩
  · have hle := List.countP_le_length (p := ibAdmitted) (l := st.insts)
    rw [h1]
    exact_mod_cast hle
  · intro iid
    simp [peMgrLsnConnAcceptedInd, h3, h4, Bool.and_eq_true,
      decide_eq_true_iff, Bool.not_eq_true', ge_iff_le, and_comm]
  · intro iid inst hfI
    simp [peMgrKillInstIb, hfI, h3, h4, Bool.and_eq_true,
      decide_eq_true_iff, Bool.not_eq_true']

/-- Reachable state of the C4 counterexample: total inbound cap 1, accepting
enabled, two connections accepted and neither yet through its handshake. -/
def c4State : PeMgrIbSt :=
  (peMgrLsnConnAcceptedInd ((peMgrLsnConnAcceptedInd (peMgrInit 1 false) 10).1)
    11).1

/-- C4 counterexample: in the reachable state above ibpTotalNum is 2 while
every ibpNum entry is 0 - so ibpTotalNum does not equal the sum of the
ibpNum entries - and the configured total cap 1 is exceeded. -/
theorem c4_counters_counterexample :
    PeReachable 1 false c4State ∧
      c4State.ibpTotalNum = 2 ∧
      (∀ s, c4State.ibpNum s = 0) ∧
      c4State.ibpNumTotal = 1 ∧
      ¬ c4State.ibpTotalNum ≤ c4State.ibpNumTotal :=
  ⟨PeReachable.accept _ 11 (PeReachable.accept _ 10 PeReachable.init),
    by decide, fun s => rfl, rfl, by decide⟩

/-- C4 witness: the amended theorem applied at the concrete reachable state
of the counterexample. -/
theorem c4_witness :
    PeReachable 1 false c4State ∧
      (c4State.ibpTotalNum = (c4State.insts.length : Int) ∧
        (∀ s, c4State.ibpNum s = (admittedIn c4State.insts s : Int)) ∧
        ((c4State.insts.countP ibAdmitted : Int) ≤ c4State.ibpTotalNum) ∧
        (∀ iid, (peMgrLsnConnAcceptedInd c4State iid).2 = true ↔
          (c4State.ibpTotalNum + 1 ≥ 1 ∧ false = false)) ∧
        (∀ iid inst, findInst c4State.insts iid = some inst →
          ((peMgrKillInstIb c4State iid).2 = true ↔
            (false = false ∧ c4State.ibpTotalNum - 1 < 1)))) :=
  ⟨PeReachable.accept _ 11 (PeReachable.accept _ 10 PeReachable.init),
    c4_inbound_counters_amended 1 false c4State
      (PeReachable.accept _ 11 (PeReachable.accept _ 10 PeReachable.init))⟩

end Gyee
